import Mathlib

/-
  Verification development for the yuzu multi-core execution driver:
  CoreManager::RunLoop (core_manager.cpp), CpuManager::RunLoop
  (cpu_manager.cpp), CpuCoreManager (cpu_core_manager.cpp), and the
  GDBStub interface (gdbstub.h).

  The embedding records the externally visible calls of each routine as an
  event trace, and threads the state of the external collaborators (core
  timing, scheduler, physical core) through an abstract world of type sigma.
  The GDB stub flags that the run loop consults are modelled concretely.
-/

namespace Yuzu

/-- Observable calls performed by the run loops, in program order. -/
inductive Event : Type
  | reschedule
  | idle
  | prepareReschedule
  | advance
  | run
  | step
  | breakCall (is_memory_break : Bool)
  | switchContext (core : Nat)
  | handlePacket
  | resetRun
  deriving DecidableEq, Repr

/-- GDB stub state consulted and mutated by the run loop: the global CPU
halt flag, the memory-break flag, and the set of threads with a pending
single-step request (threads are identified by an opaque numeric id). -/
structure GDBState : Type where
  halt_flag : Bool
  memory_break : Bool
  step_flags : List Nat
  deriving DecidableEq, Repr

namespace GDBStub

/-- Reads the halt flag, as the GetCpuHaltFlag accessor declared in
gdbstub.h does. -/
def GetCpuHaltFlag (g : GDBState) : Bool :=
  g.halt_flag

/-- Reads the per-thread step flag, as the GetThreadStepFlag accessor
declared in gdbstub.h does. -/
def GetThreadStepFlag (g : GDBState) (thread : Nat) : Bool :=
  g.step_flags.contains thread

/-- Modelled from the spec: the body of GDBStub Break is not among the
source files (only its declaration in gdbstub.h is); per the spec, Break
sets the halt flag and records whether the break resulted from a memory
breakpoint. -/
def Break (g : GDBState) (is_memory_break : Bool) : GDBState :=
  { g with halt_flag := true, memory_break := is_memory_break }

end GDBStub

/-- Abstract state of the external collaborators: the global scheduler and
physical core touched by Reschedule, the core timing subsystem, and the
execution engine. Each operation is an opaque state transformer; the
current-thread query and the can-run query are opaque observations.
Connection and enablement of the GDB server are treated as fixed during
one manager loop. -/
structure World (σ : Type) : Type where
  reschedule : Nat → σ → σ
  getCurrentThread : σ → Option Nat
  idle : σ → σ
  advance : σ → σ
  stop : σ → σ
  run : σ → σ
  step : σ → σ
  resetRun : σ → σ
  switchContext : Nat → σ → σ
  canCurrentContextRun : σ → Bool
  handlePacket : σ → GDBState → σ × GDBState
  isServerEnabled : Bool
  isConnected : Bool

namespace CoreManager

/-- CoreManager RunLoop from core_manager.cpp. The first action is
Reschedule; then the current thread is read. With no thread the core
idles, prepares a reschedule and falls through to Advance; with the halt
flag set it only reschedules again and returns; otherwise a pending step
flag issues Break and forces the step path (the source assigns
tight_loop = false before testing it, so the Step branch is taken), and
the slice ends with Advance and a final Reschedule. -/
def RunLoop {σ : Type} (w : World σ) (core_index : Nat) (tight_loop : Bool)
    (s : σ) (g : GDBState) : σ × GDBState × List Event :=
  let s1 := w.reschedule core_index s
  match w.getCurrentThread s1 with
  | none =>
      (w.reschedule core_index (w.advance (w.stop (w.idle s1))), g,
        [Event.reschedule, Event.idle, Event.prepareReschedule,
         Event.advance, Event.reschedule])
  | some sched_thread =>
      if GDBStub.GetCpuHaltFlag g then
        (w.reschedule core_index s1, g, [Event.reschedule, Event.reschedule])
      else if GDBStub.GetThreadStepFlag g sched_thread then
        (w.reschedule core_index (w.advance (w.step s1)), GDBStub.Break g false,
          [Event.reschedule, Event.breakCall false, Event.step,
           Event.advance, Event.reschedule])
      else if tight_loop then
        (w.reschedule core_index (w.advance (w.run s1)), g,
          [Event.reschedule, Event.run, Event.advance, Event.reschedule])
      else
        (w.reschedule core_index (w.advance (w.step s1)), g,
          [Event.reschedule, Event.step, Event.advance, Event.reschedule])

end CoreManager

/-- A concrete world over the unit state, used to evaluate the run loops
on closed inputs. -/
def mkWorld (th : Option Nat) (canRun : Bool) (conn : Bool) (enabled : Bool) :
    World Unit where
  reschedule := fun _ s => s
  getCurrentThread := fun _ => th
  idle := fun s => s
  advance := fun s => s
  stop := fun s => s
  run := fun s => s
  step := fun s => s
  resetRun := fun s => s
  switchContext := fun _ s => s
  canCurrentContextRun := fun _ => canRun
  handlePacket := fun s g => (s, g)
  isServerEnabled := enabled
  isConnected := conn

/-- Number of emulated CPU cores. -/
def NUM_CPU_CORES : Nat := 4

namespace CpuManager

/-- One step of the for loop inside CpuManager RunLoop (cpu_manager.cpp):
switch the timing context to the given core, run that core's slice when
the current context can run, and fold the can-run query into the
keep_running accumulator. The accumulator carries the world state, the
GDB state, keep_running, and the trace so far. -/
def coreStep {σ : Type} (w : World σ) (tight : Bool)
    (acc : σ × GDBState × Bool × List Event) (core : Nat) :
    σ × GDBState × Bool × List Event :=
  let s := w.switchContext core acc.1
  if w.canCurrentContextRun s then
    let r := CoreManager.RunLoop w core tight s acc.2.1
    (r.1, r.2.1, acc.2.2.1 || w.canCurrentContextRun r.1,
      acc.2.2.2 ++ Event.switchContext core :: r.2.2)
  else
    (s, acc.2.1, acc.2.2.1 || w.canCurrentContextRun s,
      acc.2.2.2 ++ [Event.switchContext core])

/-- One full pass of the for loop over the cores, as written in the
source: a fold of coreStep over the core indices, starting from
keep_running false and an empty trace. -/
def rotation {σ : Type} (w : World σ) (tight : Bool) (s : σ) (g : GDBState) :
    σ × GDBState × Bool × List Event :=
  List.foldl (coreStep w tight) (s, g, false, []) (List.range NUM_CPU_CORES)

/-- Modelled from the spec: dispatch of a single core as the spec words
it, switch context first, run the core's slice only when the current
context can run, and report the final can-run query. -/
def dispatchCore {σ : Type} (w : World σ) (tight : Bool) (core : Nat)
    (s : σ) (g : GDBState) : σ × GDBState × Bool × List Event :=
  let s1 := w.switchContext core s
  if w.canCurrentContextRun s1 then
    let r := CoreManager.RunLoop w core tight s1 g
    (r.1, r.2.1, w.canCurrentContextRun r.1,
      Event.switchContext core :: r.2.2)
  else
    (s1, g, w.canCurrentContextRun s1, [Event.switchContext core])

/-- Modelled from the spec: one rotation pass written as the spec words
it, cores dispatched one after the other in the order 0, 1, 2, 3, with
keep_running the disjunction of the four can-run observations. -/
def rotationSpec {σ : Type} (w : World σ) (tight : Bool) (s : σ)
    (g : GDBState) : σ × GDBState × Bool × List Event :=
  let r0 := dispatchCore w tight 0 s g
  let r1 := dispatchCore w tight 1 r0.1 r0.2.1
  let r2 := dispatchCore w tight 2 r1.1 r1.2.1
  let r3 := dispatchCore w tight 3 r2.1 r2.2.1
  (r3.1, r3.2.1, r0.2.2.1 || (r1.2.2.1 || (r2.2.2.1 || r3.2.2.1)),
    r0.2.2.2 ++ (r1.2.2.2 ++ (r2.2.2.2 ++ r3.2.2.2)))

/-- The do-while loop of CpuManager RunLoop, with explicit fuel so the
function is total (when the GDB server is disconnected the source loop
has no iteration bound). Besides the final states and the trace, the
result carries the number of iterations of the loop body that were
performed; num_loops is incremented only while the server is connected,
and the loop repeats while keep_running holds and num_loops stays below
max_loops. -/
def runLoopAux {σ : Type} (w : World σ) (tight : Bool) (max_loops : Int) :
    Nat → σ → GDBState → Int → Option (σ × GDBState × List Event × Nat)
  | 0, _, _, _ => none
  | fuel + 1, s, g, n =>
      let r := rotation w tight s g
      let n1 := if w.isConnected then n + 1 else n
      if r.2.2.1 = true ∧ n1 < max_loops then
        Option.map (fun x => (x.1, x.2.1, r.2.2.2 ++ x.2.2.1, x.2.2.2 + 1))
          (runLoopAux w tight max_loops fuel r.1 r.2.1 n1)
      else
        some (r.1, r.2.1, r.2.2.2, 1)

/-- CpuManager RunLoop from cpu_manager.cpp: service one GDB packet when
the server is enabled, reset the timing run, then enter the do-while
rotation loop with num_loops starting at zero. -/
def RunLoop {σ : Type} (w : World σ) (tight : Bool) (max_loops : Int)
    (fuel : Nat) (s : σ) (g : GDBState) :
    Option (σ × GDBState × List Event × Nat) :=
  let p :=
    if w.isServerEnabled then
      let r := w.handlePacket s g
      (r.1, r.2, [Event.handlePacket])
    else (s, g, ([] : List Event))
  let s1 := w.resetRun p.1
  Option.map (fun x => (x.1, x.2.1, p.2.2 ++ Event.resetRun :: x.2.2.1, x.2.2.2))
    (runLoopAux w tight max_loops fuel s1 p.2.1 0)

/-- Unfolds one step of the source fold to the spec-worded dispatch of a
single core. -/
theorem coreStep_eq_dispatchCore {σ : Type} (w : World σ) (tight : Bool)
    (core : Nat) (s : σ) (g : GDBState) (keep : Bool) (evs : List Event) :
    coreStep w tight (s, g, keep, evs) core =
      ((dispatchCore w tight core s g).1,
       (dispatchCore w tight core s g).2.1,
       keep || (dispatchCore w tight core s g).2.2.1,
       evs ++ (dispatchCore w tight core s g).2.2.2) := by
  unfold coreStep dispatchCore
  by_cases h : w.canCurrentContextRun (w.switchContext core s) = true <;>
    simp [h]

/-- The connected iteration bound for the inner loop, generalized over the
starting value of num_loops: with enough fuel the loop returns, and the
number of body iterations is at most the distance to max_loops, and at
least one because the source loop is a do-while. -/
theorem runLoopAux_connected_bound {σ : Type} (w : World σ) (tight : Bool)
    (max_loops : Int) (hconn : w.isConnected = true) :
    ∀ (fuel : Nat) (s : σ) (g : GDBState) (n : Int),
      (max_loops - n).toNat + 1 ≤ fuel →
      ∃ r, runLoopAux w tight max_loops fuel s g n = some r ∧
        r.2.2.2 ≤ max 1 (max_loops - n).toNat := by
  intro fuel
  induction fuel with
  | zero => intro s g n hfuel; omega
  | succ f ih =>
      intro s g n hfuel
      rw [runLoopAux, hconn]
      have hn : (if (true : Bool) = true then n + 1 else n) = n + 1 := rfl
      rw [hn]
      by_cases hc : (rotation w tight s g).2.2.1 = true ∧ n + 1 < max_loops
      · rw [if_pos hc]
        have hlt : n + 1 < max_loops := hc.2
        have hfuel2 : (max_loops - (n + 1)).toNat + 1 ≤ f := by omega
        obtain ⟨r, hr, hbound⟩ :=
          ih (rotation w tight s g).1 (rotation w tight s g).2.1 (n + 1) hfuel2
        refine ⟨_, by rw [hr]; rfl, ?_⟩
        simp only []
        omega
      · rw [if_neg hc]
        exact ⟨_, rfl, le_max_left 1 _⟩

/-- Lifts the connected iteration bound through the Option.map wrapper
that RunLoop places around the inner loop. -/
theorem runLoopAux_mapped_bound {σ : Type} (w : World σ) (tight : Bool)
    (max_loops : Int) (hconn : w.isConnected = true) (fuel : Nat)
    (pre : List Event) (S : σ) (G : GDBState)
    (hfuel : max_loops.toNat + 1 ≤ fuel) :
    ∃ r, Option.map
        (fun x => (x.1, x.2.1, pre ++ Event.resetRun :: x.2.2.1, x.2.2.2))
        (runLoopAux w tight max_loops fuel S G 0) = some r ∧
      r.2.2.2 ≤ max 1 max_loops.toNat := by
  have hfuel2 : (max_loops - 0).toNat + 1 ≤ fuel := by omega
  obtain ⟨r, hr, hb⟩ :=
    runLoopAux_connected_bound w tight max_loops hconn fuel S G 0 hfuel2
  rw [hr]
  exact ⟨_, rfl, by simpa using hb⟩

end CpuManager

/-- C4: one pass of the manager loop equals the spec-worded dispatch of
cores 0, 1, 2, 3 in that order, each preceded by a context switch and run
only when the current context can run; and the do-while repeats the pass
exactly when keep_running held and the loop counter stayed below the
bound, and stops right after a pass whose keep_running was false. -/
theorem cpuManager_rotation_order {σ : Type} (w : World σ) (tight : Bool)
    (s : σ) (g : GDBState) (max_loops : Int) (fuel : Nat) (n : Int) :
    CpuManager.rotation w tight s g = CpuManager.rotationSpec w tight s g ∧
    ((CpuManager.rotation w tight s g).2.2.1 = true →
      (if w.isConnected then n + 1 else n) < max_loops →
      CpuManager.runLoopAux w tight max_loops (fuel + 1) s g n =
        Option.map
          (fun x => (x.1, x.2.1,
            (CpuManager.rotation w tight s g).2.2.2 ++ x.2.2.1, x.2.2.2 + 1))
          (CpuManager.runLoopAux w tight max_loops fuel
            (CpuManager.rotation w tight s g).1
            (CpuManager.rotation w tight s g).2.1
            (if w.isConnected then n + 1 else n))) ∧
    ((CpuManager.rotation w tight s g).2.2.1 = false →
      CpuManager.runLoopAux w tight max_loops (fuel + 1) s g n =
        some ((CpuManager.rotation w tight s g).1,
          (CpuManager.rotation w tight s g).2.1,
          (CpuManager.rotation w tight s g).2.2.2, 1)) := by
  refine ⟨?_, ?_, ?_⟩
  · have hrange : List.range NUM_CPU_CORES = [0, 1, 2, 3] := rfl
    rw [CpuManager.rotation, hrange]
    simp only [List.foldl]
    rw [CpuManager.coreStep_eq_dispatchCore, CpuManager.coreStep_eq_dispatchCore,
      CpuManager.coreStep_eq_dispatchCore, CpuManager.coreStep_eq_dispatchCore]
    simp [CpuManager.rotationSpec, Bool.or_assoc, List.append_assoc]
  · intro hkeep hn
    rw [CpuManager.runLoopAux, if_pos ⟨hkeep, hn⟩]
  · intro hkeep
    rw [CpuManager.runLoopAux, if_neg]
    simp [hkeep]

/-- Witness for C4 at concrete inputs: the pass equality at a world whose
contexts can always run; the repeat step at that world with the counter
below the bound; and the stop step at a world whose contexts can never
run. -/
theorem cpuManager_rotation_order_witness :
    CpuManager.rotation (mkWorld none true true true) true () ⟨false, false, []⟩ =
      CpuManager.rotationSpec (mkWorld none true true true) true ()
        ⟨false, false, []⟩ ∧
    CpuManager.runLoopAux (mkWorld none true true true) true 5 2 ()
        ⟨false, false, []⟩ 0 =
      Option.map
        (fun x => (x.1, x.2.1,
          (CpuManager.rotation (mkWorld none true true true) true ()
            ⟨false, false, []⟩).2.2.2 ++ x.2.2.1, x.2.2.2 + 1))
        (CpuManager.runLoopAux (mkWorld none true true true) true 5 1 ()
          ⟨false, false, []⟩ 1) ∧
    CpuManager.runLoopAux (mkWorld none false true true) true 5 2 ()
        ⟨false, false, []⟩ 0 =
      some ((CpuManager.rotation (mkWorld none false true true) true ()
          ⟨false, false, []⟩).1,
        (CpuManager.rotation (mkWorld none false true true) true ()
          ⟨false, false, []⟩).2.1,
        (CpuManager.rotation (mkWorld none false true true) true ()
          ⟨false, false, []⟩).2.2.2, 1) := by
  refine ⟨(cpuManager_rotation_order (mkWorld none true true true) true ()
      ⟨false, false, []⟩ 5 1 0).1, ?_, ?_⟩
  · have h := (cpuManager_rotation_order (mkWorld none true true true) true ()
      ⟨false, false, []⟩ 5 1 0).2.1 (by decide) (by decide)
    simpa using h
  · have h := (cpuManager_rotation_order (mkWorld none false true true) true ()
      ⟨false, false, []⟩ 5 1 0).2.2 (by decide)
    simpa using h

/-- C5 counterexample: with the GDB server connected and gdbstub_loops
equal to zero, the do-while body still runs once, so the inner loop
iterates more than gdbstub_loops times. -/
theorem cpuManager_loops_bound_counterexample :
    ¬ (∀ r, CpuManager.RunLoop (mkWorld none true true true) true 0 5 ()
        ⟨false, false, []⟩ = some r → r.2.2.2 ≤ (0 : Int).toNat) := by
  intro h
  have h1 := h _ rfl
  exact absurd h1 (by decide)

/-- C5 as amended: while the server is connected the inner loop performs
at most max 1 gdbstub_loops iterations before RunLoop returns (at least
one body run happens because the loop is a do-while); the counter is
incremented only when connected, so when disconnected and the bound is
positive the loop repeats exactly as long as some core can run. -/
theorem cpuManager_loops_bound {σ : Type} (w : World σ) (tight : Bool)
    (max_loops : Int) (fuel : Nat) (s : σ) (g : GDBState) :
    (w.isConnected = true → max_loops.toNat + 1 ≤ fuel →
      ∃ r, CpuManager.RunLoop w tight max_loops fuel s g = some r ∧
        r.2.2.2 ≤ max 1 max_loops.toNat) ∧
    (w.isConnected = false → 0 < max_loops →
      ((CpuManager.rotation w tight s g).2.2.1 = true →
        CpuManager.runLoopAux w tight max_loops (fuel + 1) s g 0 =
          Option.map
            (fun x => (x.1, x.2.1,
              (CpuManager.rotation w tight s g).2.2.2 ++ x.2.2.1, x.2.2.2 + 1))
            (CpuManager.runLoopAux w tight max_loops fuel
              (CpuManager.rotation w tight s g).1
              (CpuManager.rotation w tight s g).2.1 0)) ∧
      ((CpuManager.rotation w tight s g).2.2.1 = false →
        CpuManager.runLoopAux w tight max_loops (fuel + 1) s g 0 =
          some ((CpuManager.rotation w tight s g).1,
            (CpuManager.rotation w tight s g).2.1,
            (CpuManager.rotation w tight s g).2.2.2, 1))) := by
  constructor
  · intro hconn hfuel
    rw [CpuManager.RunLoop]
    exact CpuManager.runLoopAux_mapped_bound w tight max_loops hconn fuel _ _ _
      hfuel
  · intro hconn hmax
    constructor
    · intro hkeep
      rw [CpuManager.runLoopAux, hconn]
      have hn : (if (false : Bool) = true then (0 : Int) + 1 else 0) = 0 := rfl
      rw [hn, if_pos ⟨hkeep, hmax⟩]
    · intro hkeep
      rw [CpuManager.runLoopAux, hconn, if_neg]
      simp [hkeep]

/-- Witness for C5 as amended: at a connected world with bound two and
fuel three the loop returns with at most two iterations; at a
disconnected world whose contexts can always run, the loop repeats after
the first pass. -/
theorem cpuManager_loops_bound_witness :
    ((CpuManager.RunLoop (mkWorld none true true true) true 2 3 ()
        ⟨false, false, []⟩).isSome = true ∧
      (Option.map (fun x => x.2.2.2)
        (CpuManager.RunLoop (mkWorld none true true true) true 2 3 ()
          ⟨false, false, []⟩)).getD 99 ≤ max 1 (2 : Int).toNat) ∧
    CpuManager.runLoopAux (mkWorld none true false true) true 5 3 ()
        ⟨false, false, []⟩ 0 =
      Option.map
        (fun x => (x.1, x.2.1,
          (CpuManager.rotation (mkWorld none true false true) true ()
            ⟨false, false, []⟩).2.2.2 ++ x.2.2.1, x.2.2.2 + 1))
        (CpuManager.runLoopAux (mkWorld none true false true) true 5 2 ()
          (CpuManager.rotation (mkWorld none true false true) true ()
            ⟨false, false, []⟩).2.1 0) := by
  constructor
  · obtain ⟨r, hr, hb⟩ := (cpuManager_loops_bound (mkWorld none true true true)
      true 2 3 () ⟨false, false, []⟩).1 rfl (by decide)
    rw [hr]
    exact ⟨rfl, by simpa using hb⟩
  · have h := ((cpuManager_loops_bound (mkWorld none true false true) true 5 2 ()
      ⟨false, false, []⟩).2 rfl (by decide)).1 (by decide)
    simpa using h

/-- C1: if the scheduler yields a current thread and the GDB halt flag is
true on entry, RunLoop performs only the two Reschedule calls and returns:
no Run, no Step, no Advance, no Idle, and the GDB state is unchanged. -/
theorem runLoop_halted_only_reschedules {σ : Type} (w : World σ) (core : Nat)
    (tight : Bool) (s : σ) (g : GDBState) (t : Nat)
    (hthread : w.getCurrentThread (w.reschedule core s) = some t)
    (hhalt : g.halt_flag = true) :
    (CoreManager.RunLoop w core tight s g).2.2 =
      [Event.reschedule, Event.reschedule] ∧
    (CoreManager.RunLoop w core tight s g).2.1 = g ∧
    Event.run ∉ (CoreManager.RunLoop w core tight s g).2.2 ∧
    Event.step ∉ (CoreManager.RunLoop w core tight s g).2.2 ∧
    Event.advance ∉ (CoreManager.RunLoop w core tight s g).2.2 ∧
    Event.idle ∉ (CoreManager.RunLoop w core tight s g).2.2 := by
  simp [CoreManager.RunLoop, hthread, GDBStub.GetCpuHaltFlag, hhalt]

/-- Witness for C1 at a concrete input: thread 7 is current and the halt
flag is set; the trace is exactly two reschedules. -/
theorem runLoop_halted_only_reschedules_witness :
    (CoreManager.RunLoop (mkWorld (some 7) true true true) 0 true ()
        ⟨true, false, []⟩).2.2 = [Event.reschedule, Event.reschedule] ∧
    (CoreManager.RunLoop (mkWorld (some 7) true true true) 0 true ()
        ⟨true, false, []⟩).2.1 = ⟨true, false, []⟩ ∧
    Event.run ∉ (CoreManager.RunLoop (mkWorld (some 7) true true true) 0 true ()
        ⟨true, false, []⟩).2.2 ∧
    Event.step ∉ (CoreManager.RunLoop (mkWorld (some 7) true true true) 0 true ()
        ⟨true, false, []⟩).2.2 ∧
    Event.advance ∉ (CoreManager.RunLoop (mkWorld (some 7) true true true) 0 true ()
        ⟨true, false, []⟩).2.2 ∧
    Event.idle ∉ (CoreManager.RunLoop (mkWorld (some 7) true true true) 0 true ()
        ⟨true, false, []⟩).2.2 :=
  runLoop_halted_only_reschedules (mkWorld (some 7) true true true) 0 true ()
    ⟨true, false, []⟩ 7 rfl rfl

/-- C2: with the halt flag clear, a current thread t, and the step flag of
t set, RunLoop issues Break with is_memory_break false before executing,
performs exactly one Step and no Run, and leaves the halt flag true. -/
theorem runLoop_step_flag_single_step {σ : Type} (w : World σ) (core : Nat)
    (tight : Bool) (s : σ) (g : GDBState) (t : Nat)
    (hthread : w.getCurrentThread (w.reschedule core s) = some t)
    (hhalt : g.halt_flag = false)
    (hstep : GDBStub.GetThreadStepFlag g t = true) :
    (CoreManager.RunLoop w core tight s g).2.2 =
      [Event.reschedule, Event.breakCall false, Event.step,
       Event.advance, Event.reschedule] ∧
    (CoreManager.RunLoop w core tight s g).2.1.halt_flag = true ∧
    Event.run ∉ (CoreManager.RunLoop w core tight s g).2.2 ∧
    ((CoreManager.RunLoop w core tight s g).2.2).count Event.step = 1 := by
  simp [CoreManager.RunLoop, hthread, GDBStub.GetCpuHaltFlag, hhalt, hstep,
    GDBStub.Break, List.count_cons]

/-- Witness for C2 at a concrete input: thread 7 is current, its step flag
is set, the halt flag is clear; exactly one Step occurs and the halt flag
is set on exit. -/
theorem runLoop_step_flag_single_step_witness :
    (CoreManager.RunLoop (mkWorld (some 7) true true true) 2 true ()
        ⟨false, false, [7]⟩).2.2 =
      [Event.reschedule, Event.breakCall false, Event.step,
       Event.advance, Event.reschedule] ∧
    (CoreManager.RunLoop (mkWorld (some 7) true true true) 2 true ()
        ⟨false, false, [7]⟩).2.1.halt_flag = true ∧
    Event.run ∉ (CoreManager.RunLoop (mkWorld (some 7) true true true) 2 true ()
        ⟨false, false, [7]⟩).2.2 ∧
    ((CoreManager.RunLoop (mkWorld (some 7) true true true) 2 true ()
        ⟨false, false, [7]⟩).2.2).count Event.step = 1 :=
  runLoop_step_flag_single_step (mkWorld (some 7) true true true) 2 true ()
    ⟨false, false, [7]⟩ 7 rfl rfl rfl

/-- C3: with no current thread, RunLoop idles exactly once, then prepares
a reschedule, then advances, and returns after a final Reschedule, without
calling Run or Step. -/
theorem runLoop_idle_when_no_thread {σ : Type} (w : World σ) (core : Nat)
    (tight : Bool) (s : σ) (g : GDBState)
    (hthread : w.getCurrentThread (w.reschedule core s) = none) :
    (CoreManager.RunLoop w core tight s g).2.2 =
      [Event.reschedule, Event.idle, Event.prepareReschedule,
       Event.advance, Event.reschedule] ∧
    ((CoreManager.RunLoop w core tight s g).2.2).count Event.idle = 1 ∧
    Event.run ∉ (CoreManager.RunLoop w core tight s g).2.2 ∧
    Event.step ∉ (CoreManager.RunLoop w core tight s g).2.2 ∧
    ((CoreManager.RunLoop w core tight s g).2.2).getLast? =
      some Event.reschedule := by
  simp [CoreManager.RunLoop, hthread, List.count_cons]

/-- Witness for C3 at a concrete input: the scheduler has no current
thread; the trace is reschedule, idle, prepare-reschedule, advance,
reschedule. -/
theorem runLoop_idle_when_no_thread_witness :
    (CoreManager.RunLoop (mkWorld none true true true) 0 true ()
        ⟨false, false, []⟩).2.2 =
      [Event.reschedule, Event.idle, Event.prepareReschedule,
       Event.advance, Event.reschedule] ∧
    ((CoreManager.RunLoop (mkWorld none true true true) 0 true ()
        ⟨false, false, []⟩).2.2).count Event.idle = 1 ∧
    Event.run ∉ (CoreManager.RunLoop (mkWorld none true true true) 0 true ()
        ⟨false, false, []⟩).2.2 ∧
    Event.step ∉ (CoreManager.RunLoop (mkWorld none true true true) 0 true ()
        ⟨false, false, []⟩).2.2 ∧
    ((CoreManager.RunLoop (mkWorld none true true true) 0 true ()
        ⟨false, false, []⟩).2.2).getLast? = some Event.reschedule :=
  runLoop_idle_when_no_thread (mkWorld none true true true) 0 true ()
    ⟨false, false, []⟩ rfl

/-- C8: on every control path of RunLoop the first recorded call is
Reschedule and the last recorded call is Reschedule. -/
theorem runLoop_bounded_by_reschedules {σ : Type} (w : World σ) (core : Nat)
    (tight : Bool) (s : σ) (g : GDBState) :
    ((CoreManager.RunLoop w core tight s g).2.2).head? =
      some Event.reschedule ∧
    ((CoreManager.RunLoop w core tight s g).2.2).getLast? =
      some Event.reschedule := by
  cases hthread : w.getCurrentThread (w.reschedule core s) with
  | none => simp [CoreManager.RunLoop, hthread]
  | some t =>
      by_cases hhalt : GDBStub.GetCpuHaltFlag g <;>
        by_cases hstep : GDBStub.GetThreadStepFlag g t <;>
          cases tight <;>
            simp [CoreManager.RunLoop, hthread, hhalt, hstep]

/-- C10: with no current thread, Idle and Advance are both called even
when the halt flag is true, because the halt-flag check sits on the
non-null-thread branch. -/
theorem runLoop_no_thread_ignores_halt {σ : Type} (w : World σ) (core : Nat)
    (tight : Bool) (s : σ) (g : GDBState)
    (hthread : w.getCurrentThread (w.reschedule core s) = none)
    (hhalt : g.halt_flag = true) :
    Event.idle ∈ (CoreManager.RunLoop w core tight s g).2.2 ∧
    Event.advance ∈ (CoreManager.RunLoop w core tight s g).2.2 := by
  simp [CoreManager.RunLoop, hthread]

/-- Witness for C10 at a concrete input: no current thread and the halt
flag set; Idle and Advance still occur. -/
theorem runLoop_no_thread_ignores_halt_witness :
    Event.idle ∈ (CoreManager.RunLoop (mkWorld none true true true) 0 true ()
      ⟨true, false, []⟩).2.2 ∧
    Event.advance ∈ (CoreManager.RunLoop (mkWorld none true true true) 0 true ()
      ⟨true, false, []⟩).2.2 :=
  runLoop_no_thread_ignores_halt (mkWorld none true true true) 0 true ()
    ⟨true, false, []⟩ rfl rfl

namespace CpuCoreManager

/-- CpuCoreManager GetCurrentCore from cpu_core_manager.cpp, with cores
identified by their index and host threads by an opaque numeric id. In
multi-core mode the core is looked up in the thread-to-core map, and a
failed lookup is the asserted programmer error, returned here as none; in
single-core mode the active-core index decides. -/
def GetCurrentCore (use_multi_core : Bool) (thread_to_cpu : List (Nat × Nat))
    (this_thread : Nat) (active_core : Nat) : Option Nat :=
  if use_multi_core then
    thread_to_cpu.lookup this_thread
  else
    some active_core

/-- Observable actions of CpuCoreManager Shutdown, in program order. -/
inductive SEvent : Type
  | notifyEnd
  | joinThread (i : Nat)
  | clearMap
  | coreShutdown (i : Nat)
  | coreDestroy (i : Nat)
  | monitorDestroy
  | barrierDestroy
  deriving DecidableEq, Repr

/-- CpuCoreManager Shutdown from cpu_core_manager.cpp: notify the
barrier, join the three helper core threads in multi-core mode, clear the
thread-to-core map, shut down and destroy each core in index order, then
destroy the exclusive monitor and finally the barrier. -/
def Shutdown (use_multi_core : Bool) : List SEvent :=
  SEvent.notifyEnd ::
    (if use_multi_core then
      [SEvent.joinThread 0, SEvent.joinThread 1, SEvent.joinThread 2]
    else []) ++
    SEvent.clearMap ::
    ((List.range NUM_CPU_CORES).flatMap
      (fun i => [SEvent.coreShutdown i, SEvent.coreDestroy i]) ++
     [SEvent.monitorDestroy, SEvent.barrierDestroy])

end CpuCoreManager

/-- Association-list lookup finds the value of a present key when the
keys carry no duplicates. -/
theorem lookup_eq_some_of_mem (m : List (Nat × Nat)) (tid c : Nat)
    (hnodup : (m.map Prod.fst).Nodup) (hmem : (tid, c) ∈ m) :
    m.lookup tid = some c := by
  induction m with
  | nil => cases hmem
  | cons hd tl ih =>
      obtain ⟨a, b⟩ := hd
      simp only [List.map_cons, List.nodup_cons] at hnodup
      rcases List.mem_cons.mp hmem with heq | htl
      · injection heq with h1 h2
        subst h1
        subst h2
        simp [List.lookup]
      · have hne : (tid == a) = false := by
          refine beq_false_of_ne ?_
          intro h
          subst h
          exact hnodup.1 (List.mem_map_of_mem Prod.fst htl)
        simp only [List.lookup, hne]
        exact ih hnodup.2 htl

/-- Association-list lookup fails for a key that is not among the map
keys. -/
theorem lookup_eq_none_of_not_mem (m : List (Nat × Nat)) (tid : Nat)
    (habs : tid ∉ m.map Prod.fst) :
    m.lookup tid = none := by
  induction m with
  | nil => rfl
  | cons hd tl ih =>
      obtain ⟨a, b⟩ := hd
      simp only [List.map_cons, List.mem_cons, not_or] at habs
      have hne : (tid == a) = false := beq_false_of_ne habs.1
      simp only [List.lookup, hne]
      exact ih habs.2

/-- C6: in multi-core mode GetCurrentCore returns the core that the
thread-to-core map associates with the calling host thread (when the map
keys are unique, as insertion in StartThreads keeps them), a missing
entry being the asserted programmer error; in single-core mode it returns
the active core. -/
theorem getCurrentCore_resolution (multi : Bool) (m : List (Nat × Nat))
    (tid active : Nat) :
    (multi = true → (m.map Prod.fst).Nodup → ∀ c, (tid, c) ∈ m →
      CpuCoreManager.GetCurrentCore multi m tid active = some c) ∧
    (multi = true → tid ∉ m.map Prod.fst →
      CpuCoreManager.GetCurrentCore multi m tid active = none) ∧
    (multi = false →
      CpuCoreManager.GetCurrentCore multi m tid active = some active) := by
  refine ⟨?_, ?_, ?_⟩
  · intro hm hnodup c hmem
    rw [CpuCoreManager.GetCurrentCore, if_pos hm]
    exact lookup_eq_some_of_mem m tid c hnodup hmem
  · intro hm habs
    rw [CpuCoreManager.GetCurrentCore, if_pos hm]
    exact lookup_eq_none_of_not_mem m tid habs
  · intro hm
    rw [CpuCoreManager.GetCurrentCore, hm]
    rfl

/-- Witness for C6 at a concrete input: host thread 2 maps to core 3 in a
duplicate-free map, single-core mode falls back to the active core, and
an unmapped thread makes the multi-core lookup fail. -/
theorem getCurrentCore_resolution_witness :
    CpuCoreManager.GetCurrentCore true [(1, 0), (2, 3)] 2 1 = some 3 ∧
    CpuCoreManager.GetCurrentCore true [(1, 0), (2, 3)] 9 1 = none ∧
    CpuCoreManager.GetCurrentCore false [(1, 0), (2, 3)] 2 1 = some 1 :=
  ⟨(getCurrentCore_resolution true [(1, 0), (2, 3)] 2 1).1 rfl (by decide) 3
      (by decide),
   (getCurrentCore_resolution true [(1, 0), (2, 3)] 9 1).2.1 rfl (by decide),
   (getCurrentCore_resolution false [(1, 0), (2, 3)] 2 1).2.2 rfl⟩

/-- C7: Shutdown performs, in order, the barrier end notification, in
multi-core mode the joins of the three helper threads, the clearing of
the thread-to-core map, the shutdown and destruction of the four cores in
index order, the destruction of the exclusive monitor, and last the
destruction of the barrier. -/
theorem shutdown_order :
    CpuCoreManager.Shutdown true =
      [CpuCoreManager.SEvent.notifyEnd,
       CpuCoreManager.SEvent.joinThread 0, CpuCoreManager.SEvent.joinThread 1,
       CpuCoreManager.SEvent.joinThread 2,
       CpuCoreManager.SEvent.clearMap,
       CpuCoreManager.SEvent.coreShutdown 0, CpuCoreManager.SEvent.coreDestroy 0,
       CpuCoreManager.SEvent.coreShutdown 1, CpuCoreManager.SEvent.coreDestroy 1,
       CpuCoreManager.SEvent.coreShutdown 2, CpuCoreManager.SEvent.coreDestroy 2,
       CpuCoreManager.SEvent.coreShutdown 3, CpuCoreManager.SEvent.coreDestroy 3,
       CpuCoreManager.SEvent.monitorDestroy,
       CpuCoreManager.SEvent.barrierDestroy] ∧
    CpuCoreManager.Shutdown false =
      [CpuCoreManager.SEvent.notifyEnd,
       CpuCoreManager.SEvent.clearMap,
       CpuCoreManager.SEvent.coreShutdown 0, CpuCoreManager.SEvent.coreDestroy 0,
       CpuCoreManager.SEvent.coreShutdown 1, CpuCoreManager.SEvent.coreDestroy 1,
       CpuCoreManager.SEvent.coreShutdown 2, CpuCoreManager.SEvent.coreDestroy 2,
       CpuCoreManager.SEvent.coreShutdown 3, CpuCoreManager.SEvent.coreDestroy 3,
       CpuCoreManager.SEvent.monitorDestroy,
       CpuCoreManager.SEvent.barrierDestroy] ∧
    (CpuCoreManager.Shutdown true).head? =
      some CpuCoreManager.SEvent.notifyEnd ∧
    (CpuCoreManager.Shutdown true).getLast? =
      some CpuCoreManager.SEvent.barrierDestroy := by
  refine ⟨by decide, by decide, by decide, by decide⟩

namespace GDBStub

/-- Breakpoint method from gdbstub.h. -/
inductive BreakpointType : Type
  | None
  | Execute
  | Read
  | Write
  | Access
  deriving DecidableEq, Repr

/-- Breakpoint search result from gdbstub.h: an address and a type. -/
structure BreakpointAddress : Type where
  address : Nat
  type : BreakpointType
  deriving DecidableEq, Repr

/-- Addresses of the stored breakpoints of the given type at or beyond
the search address. -/
def candidates (table : List (Nat × BreakpointType)) (addr : Nat)
    (ty : BreakpointType) : List Nat :=
  (table.filter (fun e => e.2 == ty && decide (addr ≤ e.1))).map Prod.fst

/-- Modelled from the spec: the body of GetNextBreakpointFromAddress is
not among the source files (only its declaration in gdbstub.h is); per
the spec it returns the stored breakpoint of the given type with the
lowest address at or beyond the search address, and the sentinel of
address zero and type None when no such breakpoint exists. The
breakpoint table is modelled as a list of address-type pairs. -/
def GetNextBreakpointFromAddress (table : List (Nat × BreakpointType))
    (addr : Nat) (ty : BreakpointType) : BreakpointAddress :=
  match candidates table addr ty with
  | [] => ⟨0, BreakpointType.None⟩
  | a :: as => ⟨as.foldl min a, ty⟩

end GDBStub

/-- The running minimum of a list stays among the starting value and the
list elements. -/
theorem foldl_min_mem (as : List Nat) :
    ∀ a : Nat, List.foldl min a as = a ∨ List.foldl min a as ∈ as := by
  induction as with
  | nil => intro a; exact Or.inl rfl
  | cons x xs ih =>
      intro a
      rcases ih (min a x) with h | h
      · rcases Nat.le_total a x with hax | hxa
        · exact Or.inl (by rw [List.foldl, h]; exact Nat.min_eq_left hax)
        · refine Or.inr (List.mem_cons.mpr (Or.inl ?_))
          rw [List.foldl] at *
          rw [h]
          exact Nat.min_eq_right hxa
      · exact Or.inr (List.mem_cons.mpr (Or.inr (by rw [List.foldl]; exact h)))

/-- The running minimum of a list is a lower bound of the starting value
and of every element. -/
theorem foldl_min_le (as : List Nat) :
    ∀ (a x : Nat), (x = a ∨ x ∈ as) → List.foldl min a as ≤ x := by
  induction as with
  | nil =>
      intro a x hx
      rcases hx with rfl | hx
      · exact Nat.le_refl x
      · cases hx
  | cons y ys ih =>
      intro a x hx
      rw [List.foldl]
      rcases hx with rfl | hx
      · exact Nat.le_trans (ih (min x y) (min x y) (Or.inl rfl))
          (Nat.min_le_left x y)
      · rcases List.mem_cons.mp hx with rfl | hys
        · exact Nat.le_trans (ih (min a x) (min a x) (Or.inl rfl))
            (Nat.min_le_right a x)
        · exact ih (min a y) x (Or.inr hys)

/-- Candidate membership is exactly table membership of the type at or
beyond the search address. -/
theorem mem_candidates (table : List (Nat × GDBStub.BreakpointType))
    (addr a : Nat) (ty : GDBStub.BreakpointType) :
    a ∈ GDBStub.candidates table addr ty ↔ (a, ty) ∈ table ∧ addr ≤ a := by
  simp only [GDBStub.candidates, List.mem_map, List.mem_filter,
    Bool.and_eq_true, beq_iff_eq, decide_eq_true_eq]
  constructor
  · rintro ⟨⟨x, y⟩, ⟨hmem, hty, hle⟩, hx⟩
    simp only at hty hle hx
    subst hty
    subst hx
    exact ⟨hmem, hle⟩
  · rintro ⟨hmem, hle⟩
    exact ⟨(a, ty), ⟨hmem, rfl, hle⟩, rfl⟩

/-- C9: GetNextBreakpointFromAddress returns a stored breakpoint of the
requested type whose address is at or beyond the search address and is
minimal among those, and returns the sentinel of address zero and type
None when no such breakpoint is stored. -/
theorem getNextBreakpoint_min (table : List (Nat × GDBStub.BreakpointType))
    (addr : Nat) (ty : GDBStub.BreakpointType) :
    ((∃ a, (a, ty) ∈ table ∧ addr ≤ a) →
      (GDBStub.GetNextBreakpointFromAddress table addr ty).type = ty ∧
      ((GDBStub.GetNextBreakpointFromAddress table addr ty).address, ty) ∈
        table ∧
      addr ≤ (GDBStub.GetNextBreakpointFromAddress table addr ty).address ∧
      ∀ a, (a, ty) ∈ table → addr ≤ a →
        (GDBStub.GetNextBreakpointFromAddress table addr ty).address ≤ a) ∧
    ((∀ a, (a, ty) ∈ table → ¬ addr ≤ a) →
      GDBStub.GetNextBreakpointFromAddress table addr ty =
        ⟨0, GDBStub.BreakpointType.None⟩) := by
  constructor
  · rintro ⟨a0, hmem0, hle0⟩
    have hc0 : a0 ∈ GDBStub.candidates table addr ty :=
      (mem_candidates table addr a0 ty).mpr ⟨hmem0, hle0⟩
    cases hc : GDBStub.candidates table addr ty with
    | nil => rw [hc] at hc0; cases hc0
    | cons b bs =>
        have hmin : List.foldl min b bs = b ∨ List.foldl min b bs ∈ bs :=
          foldl_min_mem bs b
        have hminmem : List.foldl min b bs ∈ GDBStub.candidates table addr ty := by
          rw [hc]
          rcases hmin with h | h
          · rw [h]
            exact List.mem_cons_self b bs
          · exact List.mem_cons_of_mem b h
        have hprops := (mem_candidates table addr (List.foldl min b bs) ty).mp
          hminmem
        refine ⟨?_, ?_, ?_, ?_⟩
        · rw [GDBStub.GetNextBreakpointFromAddress, hc]
        · rw [GDBStub.GetNextBreakpointFromAddress, hc]
          exact hprops.1
        · rw [GDBStub.GetNextBreakpointFromAddress, hc]
          exact hprops.2
        · intro a hmem hle
          have hca : a ∈ GDBStub.candidates table addr ty :=
            (mem_candidates table addr a ty).mpr ⟨hmem, hle⟩
          rw [hc] at hca
          rw [GDBStub.GetNextBreakpointFromAddress, hc]
          exact foldl_min_le bs b a (List.mem_cons.mp hca)
  · intro habs
    cases hc : GDBStub.candidates table addr ty with
    | nil => rw [GDBStub.GetNextBreakpointFromAddress, hc]
    | cons b bs =>
        exfalso
        have hb : b ∈ GDBStub.candidates table addr ty := by
          rw [hc]; exact List.mem_cons_self b bs
        have := (mem_candidates table addr b ty).mp hb
        exact habs b this.1 this.2

/-- Witness for C9 at a concrete input: among execute breakpoints at 5
and 9 with a read breakpoint at 7, the nearest execute breakpoint at or
beyond address 6 is the one at 9, and a search among write breakpoints
returns the sentinel. -/
theorem getNextBreakpoint_min_witness :
    (GDBStub.GetNextBreakpointFromAddress
        [(5, GDBStub.BreakpointType.Execute), (9, GDBStub.BreakpointType.Execute),
         (7, GDBStub.BreakpointType.Read)] 6 GDBStub.BreakpointType.Execute).type =
      GDBStub.BreakpointType.Execute ∧
    ((GDBStub.GetNextBreakpointFromAddress
        [(5, GDBStub.BreakpointType.Execute), (9, GDBStub.BreakpointType.Execute),
         (7, GDBStub.BreakpointType.Read)] 6 GDBStub.BreakpointType.Execute).address,
      GDBStub.BreakpointType.Execute) ∈
      [(5, GDBStub.BreakpointType.Execute), (9, GDBStub.BreakpointType.Execute),
       (7, GDBStub.BreakpointType.Read)] ∧
    6 ≤ (GDBStub.GetNextBreakpointFromAddress
        [(5, GDBStub.BreakpointType.Execute), (9, GDBStub.BreakpointType.Execute),
         (7, GDBStub.BreakpointType.Read)] 6 GDBStub.BreakpointType.Execute).address := by
  have h := (getNextBreakpoint_min
    [(5, GDBStub.BreakpointType.Execute), (9, GDBStub.BreakpointType.Execute),
     (7, GDBStub.BreakpointType.Read)] 6 GDBStub.BreakpointType.Execute).1
    ⟨9, by decide, by decide⟩
  exact ⟨h.1, h.2.1, h.2.2.1⟩

end Yuzu
